import Mathlib

/-!
Shallow embedding of the price-forecasting core of `src/utils/predict.py`
(series normalization, feature synthesis, recursive forecasting, trend
classification, forecast assembly), together with theorems checking the
specification's claims against it.

Modelling conventions:
* calendar dates are integers counting days since 1970-01-01 (pandas daily
  `DatetimeIndex` arithmetic becomes integer arithmetic);
* prices are rationals (`ℚ`), idealizing Python floats;
* the float square root used by `rolling(7).std()` is an explicit function
  parameter `rt : ℚ → ℚ`, since no claim depends on its numeric value;
* the fitted regression model is the opaque oracle `Features → ℚ`, per the
  spec's capability view; `load_model` (file I/O) is outside the embedding;
* Python exceptions become `Except Err` values.
-/

namespace AgriForecast

/-- The error outcomes of the pipeline, mirroring the Python exceptions:
`noData` is the `ValueError("No data found ...")` of `make_daily_ts`,
`insufficientHistory` the `ValueError("Not enough historical data")` of
`get_recent_ts`, `emptyFeatures` the failure of applying the model to an
empty feature selection (zero-row `X_latest`), `emptyForecast` the
`IndexError` of indexing an empty forecast list, and `divByZero` the
`ZeroDivisionError` of `get_trend`. -/
inductive Err where
  | noData
  | insufficientHistory
  | emptyFeatures
  | emptyForecast
  | divByZero
deriving DecidableEq, Repr

instance {ε α : Type} [DecidableEq ε] [DecidableEq α] : DecidableEq (Except ε α)
  | .error e, .error f =>
    if h : e = f then .isTrue (by rw [h]) else .isFalse (by simp [h])
  | .error _, .ok _ => .isFalse (by simp)
  | .ok _, .error _ => .isFalse (by simp)
  | .ok a, .ok b =>
    if h : a = b then .isTrue (by rw [h]) else .isFalse (by simp [h])

/-- One row of the flat price table handed to the core: the columns
`Commodity`, `STATE`, `Date`, `Price` used by `make_daily_ts`. -/
structure Row where
  commodity : String
  st : String
  date : ℤ
  price : ℚ
deriving DecidableEq, Repr

/-! ### Calendar arithmetic

`pandas` date attributes (`.day`, `.month`, `.dayofweek`,
`.isocalendar().week`) on a proleptic-Gregorian day number. -/

/-- Convert a day number (days since 1970-01-01) to `(year, month, day)`. -/
def civilFromDays (z : ℤ) : ℤ × ℤ × ℤ :=
  let zs := z + 719468
  let era := zs.ediv 146097
  let doe := zs - era * 146097
  let yoe := (doe - doe.ediv 1460 + doe.ediv 36524 - doe.ediv 146096).ediv 365
  let doy := doe - (365 * yoe + yoe.ediv 4 - yoe.ediv 100)
  let mp := (5 * doy + 2).ediv 153
  let d := doy - (153 * mp + 2).ediv 5 + 1
  let m := if mp < 10 then mp + 3 else mp - 9
  (yoe + era * 400 + (if m ≤ 2 then 1 else 0), m, d)

/-- Convert `(year, month, day)` to a day number (days since 1970-01-01). -/
def daysFromCivil (y m d : ℤ) : ℤ :=
  let y1 := if m ≤ 2 then y - 1 else y
  let era := y1.ediv 400
  let yoe := y1 - era * 400
  let mp := if m ≤ 2 then m + 9 else m - 3
  let doy := (153 * mp + 2).ediv 5 + d - 1
  let doe := yoe * 365 + yoe.ediv 4 - yoe.ediv 100 + doy
  era * 146097 + doe - 719468

/-- Pandas `.day` (day of month). -/
def dayOfMonth (z : ℤ) : ℤ := (civilFromDays z).2.2

/-- Pandas `.month`. -/
def monthOf (z : ℤ) : ℤ := (civilFromDays z).2.1

/-- Pandas `.dayofweek` (Monday = 0; 1970-01-01 was a Thursday, hence offset 3). -/
def dayOfWeek (z : ℤ) : ℤ := (z + 3).emod 7

/-- Pandas `.isocalendar().week`: the ISO week number, computed from the Thursday
of the day's week. -/
def weekOfYear (z : ℤ) : ℤ :=
  let th := z - dayOfWeek z + 3
  let y := (civilFromDays th).1
  (th - daysFromCivil y 1 1).ediv 7 + 1

/-! ### Rounding

Python's `round(x, 2)` rounds half to even. -/

/-- Round-half-to-even on rationals, to an integer. -/
def roundHalfEven (x : ℚ) : ℤ :=
  let f : ℤ := ⌊x⌋
  let r : ℚ := x - (f : ℚ)
  if r < 1/2 then f
  else if 1/2 < r then f + 1
  else if f % 2 = 0 then f else f + 1

/-- Python's `round(x, 2)`: round to two decimal places, half to even. -/
def round2 (x : ℚ) : ℚ := (roundHalfEven (100 * x) : ℚ) / 100

/-! ### Series Normalizer: `make_daily_ts` -/

/-- The prices observed on day `d` (the rows falling in the daily resample
bin of `d`). -/
def dayObs (rows : List Row) (d : ℤ) : List ℚ :=
  (rows.filter (fun r => r.date == d)).map (·.price)

/-- The value of `resample('D').mean()` at day `d`: the arithmetic mean of the day's
observations, `none` (NaN) when the day has none. -/
def dailyMean (rows : List Row) (d : ℤ) : Option ℚ :=
  let ps := dayObs rows d
  if ps.isEmpty then none else some (ps.sum / (ps.length : ℚ))

/-- All observation dates of the filtered rows. -/
def obsDates (rows : List Row) : List ℤ := rows.map (·.date)

/-- Nearest observed date at or before `d`. -/
def prevAnchor (rows : List Row) (d : ℤ) : Option ℤ :=
  ((obsDates rows).filter (fun a => decide (a ≤ d))).max?

/-- Nearest observed date at or after `d`. -/
def nextAnchor (rows : List Row) (d : ℤ) : Option ℤ :=
  ((obsDates rows).filter (fun a => decide (d ≤ a))).min?

/-- The price the normalized series assigns to day `d`: the day's own mean
when observed, otherwise `interpolate(method='time')` — linear interpolation
between the nearest observed days on either side, proportional to elapsed
time. (`ffill().bfill()` never fires: the resampled grid starts and ends on
observed days, so every unobserved day has anchors on both sides.) -/
def fillPrice (rows : List Row) (d : ℤ) : ℚ :=
  match dailyMean rows d with
  | some p => p
  | none =>
    match prevAnchor rows d, nextAnchor rows d with
    | some a, some b =>
      match dailyMean rows a, dailyMean rows b with
      | some pa, some pb => pa + (pb - pa) * ((d - a : ℤ) : ℚ) / ((b - a : ℤ) : ℚ)
      | _, _ => 0
    | _, _ => 0

/-- The filter `df[(df['Commodity'] == crop) & (df['STATE'] == state)]`. -/
def selectRows (df : List Row) (crop st : String) : List Row :=
  df.filter (fun r => r.commodity == crop && r.st == st)

/-- Earliest observed date of the filtered rows (junk `0` when empty). -/
def minDate (rows : List Row) : ℤ := ((obsDates rows).min?).getD 0

/-- Latest observed date of the filtered rows (junk `0` when empty). -/
def maxDate (rows : List Row) : ℤ := ((obsDates rows).max?).getD 0

/-- The normalizer `make_daily_ts(df, crop, state)`: filter the table to one
(commodity, state) pair, fail when empty, then resample to one price per
calendar day from the earliest to the latest observed date, filling gaps by
time-weighted interpolation. -/
def make_daily_ts (df : List Row) (crop st : String) : Except Err (List (ℤ × ℚ)) :=
  let rows := selectRows df crop st
  if rows.isEmpty then .error .noData
  else
    .ok ((List.range ((maxDate rows - minDate rows).toNat + 1)).map
      (fun i : ℕ => (minDate rows + (i : ℤ), fillPrice rows (minDate rows + (i : ℤ)))))

/-! ### Feature Synthesizer: `make_features` -/

/-- The model-facing feature columns of one row — everything except the
index (`Date`) and the label (`Price`), which `drop(columns=['Price'])`
removes before prediction. -/
structure Features where
  day : ℤ
  month : ℤ
  dayofweek : ℤ
  weekofyear : ℤ
  lag_1 : ℚ
  lag_7 : ℚ
  lag_14 : ℚ
  lag_30 : ℚ
  ma_7 : ℚ
  ma_14 : ℚ
  ma_30 : ℚ
  std_7 : ℚ
deriving DecidableEq, Repr

/-- One surviving row of the feature table: date index, the `Price` label
and the derived predictors. -/
structure FeatureRow where
  date : ℤ
  price : ℚ
  feats : Features
deriving DecidableEq, Repr

/-- The lag column `Price.shift(k)` at positional row `i`: the price `k` rows earlier,
NaN (`none`) for the first `k` rows. -/
def lagCol (w : List ℚ) (k i : ℕ) : Option ℚ :=
  if k ≤ i then w[i - k]? else none

/-- The rolling mean `Price.rolling(n).mean()` at row `i`: mean of rows `i-n+1 .. i`, NaN
while fewer than `n` rows are available. -/
def maCol (w : List ℚ) (n i : ℕ) : Option ℚ :=
  if n ≤ i + 1 then some (((w.drop (i + 1 - n)).take n).sum / (n : ℚ)) else none

/-- The rolling deviation `Price.rolling(n).std()` at row `i`: sample standard deviation
(`ddof = 1`) of rows `i-n+1 .. i`, with the square root taken by the float
square-root stand-in `rt`. -/
def stdCol (rt : ℚ → ℚ) (w : List ℚ) (n i : ℕ) : Option ℚ :=
  if n ≤ i + 1 then
    let win := (w.drop (i + 1 - n)).take n
    let m := win.sum / (n : ℚ)
    some (rt ((win.map (fun x => (x - m) ^ 2)).sum / ((n : ℚ) - 1)))
  else none

/-- Row `i` of the feature frame, `none` when any derived column is NaN
there — exactly the rows `dropna()` removes. -/
def optRow (rt : ℚ → ℚ) (ts : List (ℤ × ℚ)) (i : ℕ) : Option FeatureRow :=
  let w := ts.map Prod.snd
  match ts[i]?, lagCol w 1 i, lagCol w 7 i, lagCol w 14 i, lagCol w 30 i,
        maCol w 7 i, maCol w 14 i, maCol w 30 i, stdCol rt w 7 i with
  | some dp, some l1, some l7, some l14, some l30,
    some m7, some m14, some m30, some s7 =>
      some ⟨dp.1, dp.2,
        ⟨dayOfMonth dp.1, monthOf dp.1, dayOfWeek dp.1, weekOfYear dp.1,
         l1, l7, l14, l30, m7, m14, m30, s7⟩⟩
  | _, _, _, _, _, _, _, _, _ => none

/-- The synthesizer `make_features(ts_daily)`: calendar, lag and rolling features for every
row, then `dropna()` — rows with any NaN feature are dropped, in order. -/
def make_features (rt : ℚ → ℚ) (ts : List (ℤ × ℚ)) : List FeatureRow :=
  (List.range ts.length).filterMap (optRow rt ts)

/-! ### Recent window, latest features, next-day prediction -/

/-- The slice `ts.iloc[-n:]`: the last `n` rows (all of them when fewer). -/
def lastN (n : ℕ) (l : List α) : List α := l.drop (l.length - n)

/-- The window `get_recent_ts(df, crop, state, days=60)`: the regularized series
restricted to its most recent `days` rows; fails with the
"Not enough historical data" `ValueError` when the series is shorter. -/
def get_recent_ts (df : List Row) (crop st : String) (days : ℕ := 60) :
    Except Err (List (ℤ × ℚ)) := do
  let ts ← make_daily_ts df crop st
  if ts.length < days then throw .insufficientHistory
  else pure (lastN days ts)

/-- The helper `prepare_latest_features(ts_recent)`: synthesize features, take the last
row ("today"), drop the `Price` label. A zero-row selection cannot be fed to
the model, so it is the `emptyFeatures` failure. -/
def prepare_latest_features (rt : ℚ → ℚ) (ts_recent : List (ℤ × ℚ)) :
    Except Err Features :=
  match (make_features rt ts_recent).getLast? with
  | none => .error .emptyFeatures
  | some r => .ok r.feats

/-- The operation `predict_next_day_price(df, crop, state)`: the horizon-1 public
operation — recent 60-day window, latest feature row, one oracle query,
rounded to 2 decimal places. (`load_model` is the external oracle lookup and
lives outside the embedding; the oracle is passed in.) -/
def predict_next_day_price (rt : ℚ → ℚ) (oracle : Features → ℚ)
    (df : List Row) (crop st : String) : Except Err ℚ := do
  let ts_recent ← get_recent_ts df crop st
  let x ← prepare_latest_features rt ts_recent
  pure (round2 (oracle x))

/-! ### Recursive Forecaster: `forecast_prices` -/

/-- The date of the last row of the working series (`ts.index[-1]`);
junk `0` on the empty series, which the loop never consults. -/
def lastDate (ts : List (ℤ × ℚ)) : ℤ := ((ts.getLast?).map Prod.fst).getD 0

/-- The body of `forecast_prices`' loop, returning both the final working
series and the recorded forecast points. Each iteration: take the last 60
rows, synthesize features, take the last row, query the oracle; append the
*unrounded* prediction to the working series at `last date + 1`, and record
the point with the prediction rounded to 2 decimal places. -/
def forecastLoop (rt : ℚ → ℚ) (oracle : Features → ℚ)
    (ts : List (ℤ × ℚ)) : ℕ → Except Err (List (ℤ × ℚ) × List (ℤ × ℚ))
  | 0 => .ok (ts, [])
  | n + 1 =>
    match (make_features rt (lastN 60 ts)).getLast? with
    | none => .error .emptyFeatures
    | some r =>
      let q := oracle r.feats
      let d := lastDate ts + 1
      (forecastLoop rt oracle (ts ++ [(d, q)]) n).map
        (fun sp => (sp.1, (d, round2 q) :: sp.2))

/-- The forecaster `forecast_prices(df, crop, state, days=7)`: regularize the series, then
run the recursive loop for `days` iterations, returning the list of
`(date, rounded price)` forecast points. -/
def forecast_prices (rt : ℚ → ℚ) (oracle : Features → ℚ) (df : List Row)
    (crop st : String) (days : ℕ := 7) : Except Err (List (ℤ × ℚ)) := do
  let ts ← make_daily_ts df crop st
  let sp ← forecastLoop rt oracle ts days
  pure sp.2

/-! ### Trend Classifier: `get_trend` -/

/-- The threshold chain of `get_trend`, applied to the (unrounded) percent
change: strict `>` / `<` comparisons at 5, 2, -5, -2. -/
def trendLabel (pct : ℚ) : String :=
  if pct > 5 then "Strong Upward 📈"
  else if pct > 2 then "Upward 📈"
  else if pct < -5 then "Strong Downward 📉"
  else if pct < -2 then "Downward 📉"
  else "Stable ➝"

/-- The classifier `get_trend(forecasts)`: percent change from first to last forecast
price, classified by `trendLabel` on the unrounded value; the returned
percent change is rounded to 2 decimal places. Empty input is the Python
`IndexError`, a zero first price the `ZeroDivisionError`. -/
def get_trend (forecasts : List (ℤ × ℚ)) : Except Err (ℚ × String) :=
  match forecasts.map Prod.snd with
  | [] => .error .emptyForecast
  | p0 :: rest =>
    if p0 = 0 then .error .divByZero
    else
      let plast := (p0 :: rest).getLast (List.cons_ne_nil _ _)
      let pct := (plast - p0) / p0 * 100
      .ok (round2 pct, trendLabel pct)

/-! ### Forecast Assembler: `forecast_summary` -/

/-- The response structure built by `forecast_summary`. -/
structure Summary where
  crop : String
  st : String
  days : ℕ
  start_price : ℚ
  end_price : ℚ
  percent_change : ℚ
  trend : String
  trend_emoji : String
  daily_forecast : List (ℤ × ℚ)
deriving DecidableEq, Repr

/-- The assembly step at the end of `forecast_summary`: start/end prices are
the first and last *point* prices (`forecast[0][1]`, `forecast[-1][1]`), the
percent change is `get_trend`'s rounded value, and the trend string is split
into its text and trailing emoji. -/
def summaryOf (crop st : String) (days : ℕ) (pct : ℚ) (trend : String)
    (d0 : ℤ) (p0 : ℚ) (fs : List (ℤ × ℚ)) : Summary :=
  let endPrice := (((d0, p0) :: fs).getLast (List.cons_ne_nil _ _)).2
  let hasEmoji := trend.contains '📈' || trend.contains '📉' || trend.contains '➝'
  let parts := trend.splitOn " "
  let emoji := if hasEmoji then parts.getLastD "" else ""
  let text := if hasEmoji then String.intercalate " " parts.dropLast else trend
  ⟨crop, st, days, p0, endPrice, pct, text, emoji, (d0, p0) :: fs⟩

/-- The assembler `forecast_summary(df, crop, state, days=7)`: run the forecast, classify
the trend, and package the result via `summaryOf`. -/
def forecast_summary (rt : ℚ → ℚ) (oracle : Features → ℚ) (df : List Row)
    (crop st : String) (days : ℕ := 7) : Except Err Summary := do
  let f ← forecast_prices rt oracle df crop st days
  let (pct, trend) ← get_trend f
  match f with
  | [] => throw .emptyForecast
  | (d0, p0) :: fs => pure (summaryOf crop st days pct trend d0 p0 fs)

/-! ## Helper lemmas -/

theorem optRow_eq_none {rt : ℚ → ℚ} {ts : List (ℤ × ℚ)} {i : ℕ} (hi : i < 30) :
    optRow rt ts i = none := by
  have h30 : lagCol (ts.map Prod.snd) 30 i = none := by
    simp only [lagCol, if_neg (by omega : ¬ 30 ≤ i)]
  unfold optRow
  cases ts[i]? <;>
    cases lagCol (ts.map Prod.snd) 1 i <;>
      cases lagCol (ts.map Prod.snd) 7 i <;>
        cases lagCol (ts.map Prod.snd) 14 i <;>
          simp [h30]

theorem optRow_isSome {rt : ℚ → ℚ} {ts : List (ℤ × ℚ)} {i : ℕ}
    (h30 : 30 ≤ i) (hi : i < ts.length) : (optRow rt ts i).isSome := by
  have hget : ts[i]? = some (ts.get ⟨i, hi⟩) := by
    rw [List.getElem?_eq_getElem hi]; rfl
  have glag : ∀ k : ℕ, k ≤ i → lagCol (ts.map Prod.snd) k i =
      some ((ts.map Prod.snd).get ⟨i - k, by simp; omega⟩) := by
    intro k hk
    simp only [lagCol, if_pos hk]
    rw [List.getElem?_eq_getElem (by simp; omega)]; rfl
  simp only [optRow, maCol, stdCol]
  rw [hget, glag 1 (by omega), glag 7 (by omega), glag 14 (by omega),
    glag 30 (by omega), if_pos (show (7:ℕ) ≤ i + 1 by omega),
    if_pos (show (14:ℕ) ≤ i + 1 by omega), if_pos (show (30:ℕ) ≤ i + 1 by omega),
    if_pos (show (7:ℕ) ≤ i + 1 by omega)]
  rfl

theorem optRow_date {rt : ℚ → ℚ} {ts : List (ℤ × ℚ)} {i : ℕ} {fr : FeatureRow}
    (h : optRow rt ts i = some fr) (hi : i < ts.length) :
    fr.date = (ts.get ⟨i, hi⟩).1 := by
  simp only [optRow] at h
  split at h
  · injection h with h
    subst h
    have hget : ts[i]? = some (ts.get ⟨i, hi⟩) := by
      rw [List.getElem?_eq_getElem hi]; rfl
    simp_all
  · exact absurd h (by simp)

theorem optRow_eq_some {rt : ℚ → ℚ} {ts : List (ℤ × ℚ)} {i : ℕ}
    (h30 : 30 ≤ i) (hi : i < ts.length) :
    ∃ fr : FeatureRow, optRow rt ts i = some fr ∧ fr.date = (ts.get ⟨i, hi⟩).1 := by
  obtain ⟨fr, hfr⟩ := Option.isSome_iff_exists.mp (optRow_isSome h30 hi)
  exact ⟨fr, hfr, optRow_date hfr hi⟩

theorem make_features_prefix_dates (rt : ℚ → ℚ) (ts : List (ℤ × ℚ)) :
    ∀ n, n ≤ ts.length →
      (((List.range n).filterMap (optRow rt ts)).map (·.date)) =
        ((ts.map Prod.fst).take n).drop 30 := by
  intro n
  induction n with
  | zero => simp
  | succ n ih =>
    intro hn
    rw [List.range_succ, List.filterMap_append, List.map_append, ih (by omega)]
    by_cases h30 : n < 30
    · have hl : ([n].filterMap (optRow rt ts)) = [] := by
        simp [optRow_eq_none h30]
      rw [hl]
      have h1 : (((ts.map Prod.fst).take n).drop 30) = [] :=
        List.drop_eq_nil_of_le (by simp; omega)
      have h2 : (((ts.map Prod.fst).take (n + 1)).drop 30) = [] :=
        List.drop_eq_nil_of_le (by simp; omega)
      simp [h1, h2]
    · obtain ⟨fr, hfr, hdate⟩ := @optRow_eq_some rt ts n
        (by omega : 30 ≤ n) (by omega : n < ts.length)
      have hl : ([n].filterMap (optRow rt ts)) = [fr] := by simp [hfr]
      rw [hl]
      have htake : (ts.map Prod.fst).take (n + 1) =
          (ts.map Prod.fst).take n ++ [(ts.map Prod.fst).get ⟨n, by simp; omega⟩] := by
        rw [List.take_succ]
        congr 1
        rw [List.getElem?_eq_getElem (by simp; omega)]
        rfl
      rw [htake, List.drop_append_eq_append_drop]
      have hlen : ((ts.map Prod.fst).take n).length = n := by
        simp; omega
      rw [hlen]
      have : 30 - n = 0 := by omega
      rw [this, List.drop_zero]
      simp [hdate, List.getElem_map]

theorem make_features_map_date (rt : ℚ → ℚ) (ts : List (ℤ × ℚ)) :
    (make_features rt ts).map (·.date) = (ts.map Prod.fst).drop 30 := by
  have h := make_features_prefix_dates rt ts ts.length le_rfl
  have h2 : (ts.map Prod.fst).take ts.length = ts.map Prod.fst :=
    List.take_of_length_le (by simp)
  rwa [h2] at h

theorem make_features_length (rt : ℚ → ℚ) (ts : List (ℤ × ℚ)) :
    (make_features rt ts).length = ts.length - 30 := by
  have h := congrArg List.length (make_features_map_date rt ts)
  simpa using h

theorem int_min?_spec {l : List ℤ} {a : ℤ} (h : l.min? = some a) :
    a ∈ l ∧ ∀ b ∈ l, a ≤ b :=
  ⟨List.min?_mem (fun _ _ => min_choice _ _) h,
   fun b hb =>
     ((List.le_min?_iff (fun _ _ _ => le_min_iff) h).1 le_rfl) b hb⟩

theorem int_max?_spec {l : List ℤ} {a : ℤ} (h : l.max? = some a) :
    a ∈ l ∧ ∀ b ∈ l, b ≤ a :=
  ⟨List.max?_mem (fun _ _ => max_choice _ _) h,
   fun b hb =>
     ((List.max?_le_iff (fun _ _ _ => max_le_iff) h).1 le_rfl) b hb⟩

theorem make_daily_ts_ok {df : List Row} {crop st : String} {ts : List (ℤ × ℚ)}
    (h : make_daily_ts df crop st = .ok ts) :
    selectRows df crop st ≠ [] ∧
    ts = (List.range
        ((maxDate (selectRows df crop st) - minDate (selectRows df crop st)).toNat + 1)).map
      (fun i : ℕ => (minDate (selectRows df crop st) + (i : ℤ),
        fillPrice (selectRows df crop st) (minDate (selectRows df crop st) + (i : ℤ)))) := by
  simp only [make_daily_ts] at h
  split at h
  · exact absurd h (by simp)
  · next hne =>
    refine ⟨by simpa [List.isEmpty_iff] using hne, ?_⟩
    injection h with h
    exact h.symm

theorem minDate_le_maxDate {rows : List Row} {d : ℤ}
    (hd : d ∈ obsDates rows) : minDate rows ≤ d ∧ d ≤ maxDate rows := by
  have hne : obsDates rows ≠ [] := by
    intro hnil; rw [hnil] at hd; exact absurd hd (List.not_mem_nil d)
  obtain ⟨lo, hlo⟩ := Option.isSome_iff_exists.mp (List.isSome_min?_of_mem hd)
  obtain ⟨hi, hhi⟩ := Option.isSome_iff_exists.mp (List.isSome_max?_of_mem hd)
  constructor
  · rw [minDate, hlo]
    exact (int_min?_spec hlo).2 d hd
  · rw [maxDate, hhi]
    exact (int_max?_spec hhi).2 d hd

theorem dayObs_ne_nil {rows : List Row} {d : ℤ} (hd : d ∈ obsDates rows) :
    dayObs rows d ≠ [] := by
  obtain ⟨r, hr, hrd⟩ := List.mem_map.mp hd
  have hmem : r.price ∈ dayObs rows d := by
    apply List.mem_map_of_mem
    exact List.mem_filter.mpr ⟨hr, by simp [hrd]⟩
  intro hnil
  rw [hnil] at hmem
  exact absurd hmem (List.not_mem_nil _)

theorem fillPrice_observed {rows : List Row} {d : ℤ} (hd : d ∈ obsDates rows) :
    fillPrice rows d = (dayObs rows d).sum / ((dayObs rows d).length : ℚ) := by
  have hne := dayObs_ne_nil hd
  simp only [fillPrice, dailyMean]
  rw [if_neg (by simpa [List.isEmpty_iff] using hne)]

/-! ## Claim theorems -/

/-- C4 (confirmed): for every successful normalization, the output has
exactly `(max_date - min_date).days + 1` rows, row `i` sits on calendar day
`min_date + i`, and consecutive rows are exactly one day apart — dates are
strictly increasing, contiguous, and duplicate-free. -/
theorem normalizer_gap_free {df : List Row} {crop st : String} {ts : List (ℤ × ℚ)}
    (h : make_daily_ts df crop st = .ok ts) :
    ts.length =
      (maxDate (selectRows df crop st) - minDate (selectRows df crop st)).toNat + 1 ∧
    (∀ i (hi : i < ts.length),
      (ts.get ⟨i, hi⟩).1 = minDate (selectRows df crop st) + (i : ℤ)) ∧
    List.Chain' (fun a b : ℤ × ℚ => b.1 = a.1 + 1) ts := by
  obtain ⟨-, rfl⟩ := make_daily_ts_ok h
  refine ⟨by rw [List.length_map, List.length_range], ?_, ?_⟩
  · intro i hi
    simp only [List.get_eq_getElem, List.getElem_map, List.getElem_range]
  · rw [List.chain'_iff_get]
    intro i hi
    simp only [List.get_eq_getElem, List.getElem_map, List.getElem_range]
    push_cast
    ring

/-- Witness for C4 at a concrete input: two observations three days apart
normalize to a three-row contiguous daily series. -/
theorem normalizer_gap_free_witness :
    make_daily_ts [⟨"c", "s", 0, 100⟩, ⟨"c", "s", 2, 50⟩] "c" "s" =
      .ok [((0:ℤ), (100:ℚ)), (1, 75), (2, 50)] ∧
    ([((0:ℤ), (100:ℚ)), (1, 75), (2, 50)].length =
      (maxDate (selectRows [⟨"c", "s", 0, 100⟩, ⟨"c", "s", 2, 50⟩] "c" "s") -
       minDate (selectRows [⟨"c", "s", 0, 100⟩, ⟨"c", "s", 2, 50⟩] "c" "s")).toNat + 1 ∧
     (∀ i (hi : i < [((0:ℤ), (100:ℚ)), (1, 75), (2, 50)].length),
       ([((0:ℤ), (100:ℚ)), (1, 75), (2, 50)].get ⟨i, hi⟩).1 =
         minDate (selectRows [⟨"c", "s", 0, 100⟩, ⟨"c", "s", 2, 50⟩] "c" "s") + (i : ℤ)) ∧
     List.Chain' (fun a b : ℤ × ℚ => b.1 = a.1 + 1)
       [((0:ℤ), (100:ℚ)), (1, 75), (2, 50)]) :=
  ⟨by decide!, normalizer_gap_free (by decide!)⟩

/-- C5 (confirmed): the observation set `{day0: 100, day10: 200}` normalizes
to the eleven-day series whose internal gaps are filled by time-weighted
linear interpolation; in particular day 5 carries the price 150. -/
theorem interpolation_time_weighted :
    make_daily_ts [⟨"Wheat", "Punjab", 0, 100⟩, ⟨"Wheat", "Punjab", 10, 200⟩]
        "Wheat" "Punjab" =
      .ok [((0:ℤ), (100:ℚ)), (1, 110), (2, 120), (3, 130), (4, 140), (5, 150),
        (6, 160), (7, 170), (8, 180), (9, 190), (10, 200)] := by
  decide!

/-- Counterexample to C6 as stated: a date carrying two raw observations
(100 and 200) is normalized to their mean 150, which equals neither observed
price, so "the output price at that date equals the observed price" fails. -/
theorem normalizer_duplicate_date_counterexample :
    make_daily_ts [⟨"c", "s", 0, 100⟩, ⟨"c", "s", 0, 200⟩] "c" "s" =
      .ok [((0:ℤ), (150:ℚ))] ∧
    (150 : ℚ) ≠ 100 ∧ (150 : ℚ) ≠ 200 := by
  refine ⟨by decide!, by norm_num, by norm_num⟩

/-- C6 (amended): the normalizer's output carries, at every date with at
least one raw observation, the arithmetic mean of that date's observations;
in particular a date with exactly one observation keeps its price exactly. -/
theorem normalizer_preserves_observed_mean {df : List Row} {crop st : String}
    {ts : List (ℤ × ℚ)} {d : ℤ} (h : make_daily_ts df crop st = .ok ts)
    (hd : d ∈ obsDates (selectRows df crop st)) :
    (d, (dayObs (selectRows df crop st) d).sum /
        ((dayObs (selectRows df crop st) d).length : ℚ)) ∈ ts ∧
    ∀ p : ℚ, dayObs (selectRows df crop st) d = [p] → (d, p) ∈ ts := by
  obtain ⟨hne, rfl⟩ := make_daily_ts_ok h
  obtain ⟨hlo, hhi⟩ := minDate_le_maxDate hd
  have hmem : (d, (dayObs (selectRows df crop st) d).sum /
      ((dayObs (selectRows df crop st) d).length : ℚ)) ∈
      (List.range ((maxDate (selectRows df crop st) -
          minDate (selectRows df crop st)).toNat + 1)).map
        (fun i : ℕ => (minDate (selectRows df crop st) + (i : ℤ),
          fillPrice (selectRows df crop st)
            (minDate (selectRows df crop st) + (i : ℤ)))) := by
    apply List.mem_map.mpr
    refine ⟨(d - minDate (selectRows df crop st)).toNat,
      List.mem_range.mpr (by omega), ?_⟩
    have hcast : minDate (selectRows df crop st) +
        ((d - minDate (selectRows df crop st)).toNat : ℤ) = d := by omega
    rw [hcast, fillPrice_observed hd]
  refine ⟨hmem, fun p hp => ?_⟩
  have h2 := hmem
  rw [hp] at h2
  simpa using h2

/-- Witness for C6 (amended) at a concrete input: the single observation
`(day 1, 80)` is preserved exactly, and its singleton-day mean is itself. -/
theorem normalizer_preserves_observed_mean_witness :
    make_daily_ts [⟨"c", "s", 1, 80⟩] "c" "s" = .ok [((1:ℤ), (80:ℚ))] ∧
    (1:ℤ) ∈ obsDates (selectRows [⟨"c", "s", 1, 80⟩] "c" "s") ∧
    ((1:ℤ), (dayObs (selectRows [⟨"c", "s", 1, 80⟩] "c" "s") 1).sum /
        ((dayObs (selectRows [⟨"c", "s", 1, 80⟩] "c" "s") 1).length : ℚ)) ∈
      [((1:ℤ), (80:ℚ))] ∧
    (∀ p : ℚ, dayObs (selectRows [⟨"c", "s", 1, 80⟩] "c" "s") 1 = [p] →
      ((1:ℤ), p) ∈ [((1:ℤ), (80:ℚ))]) :=
  ⟨by decide!, by decide,
   (normalizer_preserves_observed_mean (by decide!) (by decide)).1,
   (normalizer_preserves_observed_mean (by decide!) (by decide)).2⟩

/-- C7 (confirmed): for every daily series of exactly 90 days,
`make_features` returns exactly `90 - 30 = 60` feature rows, in date order —
precisely the rows from positional index 30 on, each carrying every derived
feature (the embedding's rows are total records, built only when every
column is non-NaN); rows with insufficient history are dropped, never
null-filled. -/
theorem synthesize_ninety_day_rows (rt : ℚ → ℚ) (ts : List (ℤ × ℚ))
    (h : ts.length = 90) :
    (make_features rt ts).length = 60 ∧
    (make_features rt ts).map (·.date) = (ts.map Prod.fst).drop 30 := by
  refine ⟨?_, make_features_map_date rt ts⟩
  rw [make_features_length, h]

/-- Witness for C7 at a concrete 90-day series. -/
theorem synthesize_ninety_day_rows_witness :
    ((List.range 90).map (fun i : ℕ => ((i : ℤ), (100:ℚ)))).length = 90 ∧
    ((make_features id
        ((List.range 90).map (fun i : ℕ => ((i : ℤ), (100:ℚ))))).length = 60 ∧
      (make_features id
          ((List.range 90).map (fun i : ℕ => ((i : ℤ), (100:ℚ))))).map (·.date) =
        (((List.range 90).map (fun i : ℕ => ((i : ℤ), (100:ℚ)))).map Prod.fst).drop 30) :=
  ⟨by simp, synthesize_ninety_day_rows id _ (by simp)⟩

/-! ## Recursive-loop lemmas -/

theorem lastDate_append (ts : List (ℤ × ℚ)) (d : ℤ) (q : ℚ) :
    lastDate (ts ++ [(d, q)]) = d := by
  simp [lastDate]

theorem window_has_features {rt : ℚ → ℚ} {ts : List (ℤ × ℚ)}
    (h : 31 ≤ ts.length) :
    ∃ r, (make_features rt (lastN 60 ts)).getLast? = some r := by
  have hlen : (make_features rt (lastN 60 ts)).length = (lastN 60 ts).length - 30 :=
    make_features_length _ _
  have hw : 31 ≤ (lastN 60 ts).length := by
    have hdrop : (lastN 60 ts).length = ts.length - (ts.length - 60) := by
      simp [lastN]
    omega
  have hne : make_features rt (lastN 60 ts) ≠ [] := by
    intro hnil
    rw [hnil] at hlen
    simp at hlen
    omega
  exact Option.isSome_iff_exists.mp (List.getLast?_isSome.mpr hne)

theorem forecastLoop_succ_of_none {rt : ℚ → ℚ} {o : Features → ℚ}
    {ts : List (ℤ × ℚ)} {n : ℕ}
    (hr : (make_features rt (lastN 60 ts)).getLast? = none) :
    forecastLoop rt o ts (n + 1) = .error .emptyFeatures := by
  have hdef : forecastLoop rt o ts (n + 1) =
      match (make_features rt (lastN 60 ts)).getLast? with
      | none => Except.error Err.emptyFeatures
      | some r =>
        (forecastLoop rt o (ts ++ [(lastDate ts + 1, o r.feats)]) n).map
          (fun sp => (sp.1, (lastDate ts + 1, round2 (o r.feats)) :: sp.2)) := rfl
  rw [hdef, hr]

theorem forecastLoop_succ_of_some {rt : ℚ → ℚ} {o : Features → ℚ}
    {ts : List (ℤ × ℚ)} {n : ℕ} {r : FeatureRow}
    (hr : (make_features rt (lastN 60 ts)).getLast? = some r) :
    forecastLoop rt o ts (n + 1) =
      (forecastLoop rt o (ts ++ [(lastDate ts + 1, o r.feats)]) n).map
        (fun sp => (sp.1, (lastDate ts + 1, round2 (o r.feats)) :: sp.2)) := by
  have hdef : forecastLoop rt o ts (n + 1) =
      match (make_features rt (lastN 60 ts)).getLast? with
      | none => Except.error Err.emptyFeatures
      | some r2 =>
        (forecastLoop rt o (ts ++ [(lastDate ts + 1, o r2.feats)]) n).map
          (fun sp => (sp.1, (lastDate ts + 1, round2 (o r2.feats)) :: sp.2)) := rfl
  rw [hdef, hr]

theorem forecastLoop_ok (rt : ℚ → ℚ) (o : Features → ℚ) (n : ℕ) :
    ∀ ts : List (ℤ × ℚ), 31 ≤ ts.length →
      ∃ s pts, forecastLoop rt o ts n = .ok (s, pts) ∧
        pts.length = n ∧
        pts.map Prod.fst = (List.range n).map (fun i : ℕ => lastDate ts + 1 + (i : ℤ)) := by
  induction n with
  | zero =>
    intro ts _
    exact ⟨ts, [], rfl, rfl, by simp⟩
  | succ n ih =>
    intro ts h
    obtain ⟨r, hr⟩ := @window_has_features rt ts h
    have h2 : 31 ≤ (ts ++ [(lastDate ts + 1, o r.feats)]).length := by
      rw [List.length_append]
      omega
    obtain ⟨s, pts, hloop, hlen, hdates⟩ := ih (ts ++ [(lastDate ts + 1, o r.feats)]) h2
    refine ⟨s, (lastDate ts + 1, round2 (o r.feats)) :: pts, ?_, by simp [hlen], ?_⟩
    · rw [forecastLoop_succ_of_some hr, hloop]
      rfl
    · rw [lastDate_append] at hdates
      rw [List.range_succ_eq_map, List.map_cons, List.map_cons, hdates, List.map_map]
      refine congrArg₂ List.cons (by push_cast; ring) ?_
      apply List.map_congr_left
      intro i _
      simp only [Function.comp_apply]
      push_cast
      ring

theorem forecast_prices_eq {rt : ℚ → ℚ} {o : Features → ℚ} {df : List Row}
    {crop st : String} {ts : List (ℤ × ℚ)} {days : ℕ}
    (h : make_daily_ts df crop st = .ok ts) :
    forecast_prices rt o df crop st days = Prod.snd <$> forecastLoop rt o ts days := by
  simp only [forecast_prices, h]
  rfl

/-- C8 (confirmed): for every regularized series satisfying the ≥31-day
history precondition, every oracle, and every horizon ≥ 1, `forecast_prices`
succeeds with exactly `horizon` points whose dates are the consecutive
calendar days immediately following the series' last date. -/
theorem forecast_length_and_dates {rt : ℚ → ℚ} {o : Features → ℚ}
    {df : List Row} {crop st : String} {ts : List (ℤ × ℚ)} (days : ℕ)
    (h : make_daily_ts df crop st = .ok ts) (hlen : 31 ≤ ts.length)
    (_hdays : 1 ≤ days) :
    ∃ pts, forecast_prices rt o df crop st days = .ok pts ∧
      pts.length = days ∧
      pts.map Prod.fst = (List.range days).map (fun i : ℕ => lastDate ts + 1 + (i : ℤ)) := by
  obtain ⟨s, pts, hloop, hl, hd⟩ := forecastLoop_ok rt o days ts hlen
  refine ⟨pts, ?_, hl, hd⟩
  rw [forecast_prices_eq h, hloop]
  rfl

/-- A table of 35 days of constant observations for one pair, used as witness data. -/
def dfW35 : List Row := (List.range 35).map (fun i : ℕ => ⟨"c", "s", (i : ℤ), 1000⟩)

/-- The daily series `make_daily_ts` produces from `dfW35`. -/
def tsW35 : List (ℤ × ℚ) := (List.range 35).map (fun i : ℕ => ((i : ℤ), (1000:ℚ)))

/-- Witness for C8 at a concrete 35-day series and horizon 7. -/
theorem forecast_length_and_dates_witness :
    make_daily_ts dfW35 "c" "s" = .ok tsW35 ∧ 31 ≤ tsW35.length ∧ 1 ≤ 7 ∧
    ∃ pts, forecast_prices id (fun _ => (1000:ℚ)) dfW35 "c" "s" 7 = .ok pts ∧
      pts.length = 7 ∧
      pts.map Prod.fst = (List.range 7).map (fun i : ℕ => lastDate tsW35 + 1 + (i : ℤ)) :=
  ⟨by decide!, by decide!, by decide,
   forecast_length_and_dates 7 (by decide!) (by decide!) (by decide)⟩

/-- Counterexample to C1 as stated: a 20-day series does not make
`forecast_prices` fail with the insufficient-history error before the loop —
there is no history check in `forecast_prices` at all; the call fails inside
the first iteration when the empty feature selection reaches the model. -/
theorem forecast_short_series_counterexample :
    make_daily_ts [(⟨"c", "s", 0, 100⟩ : Row), ⟨"c", "s", 19, 100⟩] "c" "s" =
      .ok ((List.range 20).map (fun i : ℕ => ((i : ℤ), (100:ℚ)))) ∧
    forecast_prices id (fun _ => (1000:ℚ))
        [(⟨"c", "s", 0, 100⟩ : Row), ⟨"c", "s", 19, 100⟩] "c" "s" 7 =
      .error .emptyFeatures ∧
    Err.emptyFeatures ≠ Err.insufficientHistory :=
  ⟨by decide!, by decide!, by decide⟩

/-- C1 (amended): `forecast_prices` performs no history precondition check.
For a regularized series shorter than 31 days it fails *inside* the loop
(the first iteration's feature synthesis is empty, so the model is applied
to an empty selection), not before the loop and not with the
insufficient-history error; for a series of at least 31 days it raises no
error and returns a full-length forecast. The 60-day insufficient-history
guard lives only in `get_recent_ts`, used by `predict_next_day_price`. -/
theorem forecast_no_history_guard {rt : ℚ → ℚ} {o : Features → ℚ}
    {df : List Row} {crop st : String} {ts : List (ℤ × ℚ)} (days : ℕ)
    (h : make_daily_ts df crop st = .ok ts) (hdays : 1 ≤ days) :
    (ts.length < 31 → forecast_prices rt o df crop st days = .error .emptyFeatures) ∧
    (31 ≤ ts.length →
      ∃ pts, forecast_prices rt o df crop st days = .ok pts ∧ pts.length = days) := by
  constructor
  · intro hshort
    obtain ⟨n, rfl⟩ : ∃ n, days = n + 1 := ⟨days - 1, by omega⟩
    have hfe : make_features rt (lastN 60 ts) = [] := by
      apply List.eq_nil_of_length_eq_zero
      rw [make_features_length]
      have hdrop : (lastN 60 ts).length = ts.length - (ts.length - 60) := by
        simp [lastN]
      omega
    have hloop : forecastLoop rt o ts (n + 1) = .error .emptyFeatures :=
      forecastLoop_succ_of_none (by rw [hfe]; rfl)
    rw [forecast_prices_eq h, hloop]
    rfl
  · intro hlong
    obtain ⟨s, pts, hloop, hl, -⟩ := forecastLoop_ok rt o days ts hlong
    exact ⟨pts, by rw [forecast_prices_eq h, hloop]; rfl, hl⟩

/-- Witness for C1 (amended) at the concrete 35-day series. -/
theorem forecast_no_history_guard_witness :
    make_daily_ts dfW35 "c" "s" = .ok tsW35 ∧ (1:ℕ) ≤ 3 ∧
    ((tsW35.length < 31 →
      forecast_prices id (fun _ => (1000:ℚ)) dfW35 "c" "s" 3 = .error .emptyFeatures) ∧
     (31 ≤ tsW35.length →
      ∃ pts, forecast_prices id (fun _ => (1000:ℚ)) dfW35 "c" "s" 3 = .ok pts ∧
        pts.length = 3)) :=
  ⟨by decide!, by decide, forecast_no_history_guard 3 (by decide!) (by decide)⟩

theorem get_recent_ts_eq {df : List Row} {crop st : String} {ts : List (ℤ × ℚ)}
    (days : ℕ) (h : make_daily_ts df crop st = .ok ts) :
    get_recent_ts df crop st days =
      if ts.length < days then .error .insufficientHistory
      else .ok (lastN days ts) := by
  simp only [get_recent_ts, h]
  rfl

/-- The 40-day pair-of-observations table used to separate the success
domains of the two public operations. -/
def dfW40 : List Row := [⟨"c", "s", 0, 100⟩, ⟨"c", "s", 39, 100⟩]

/-- Counterexample to C2 as stated: on a 40-day series,
`forecast_prices(..., days=1)` succeeds while `predict_next_day_price`
fails with the 60-day insufficient-history guard — the two operations do
not succeed on the same inputs. -/
theorem predict_vs_forecast_success_counterexample :
    predict_next_day_price id (fun _ => (1000:ℚ)) dfW40 "c" "s" =
      .error .insufficientHistory ∧
    forecast_prices id (fun _ => (1000:ℚ)) dfW40 "c" "s" 1 =
      .ok [((40:ℤ), (1000:ℚ))] :=
  ⟨by decide!, by decide!⟩

/-- C2 (amended): when the regularized series has at least 60 days, the two
operations agree — `predict_next_day_price` returns exactly the price of the
single point of `forecast_prices` with horizon 1; but their success domains
differ: for a series of 31–59 days the forecast succeeds while
`predict_next_day_price` fails with the insufficient-history error. -/
theorem predict_next_day_vs_forecast {rt : ℚ → ℚ} {o : Features → ℚ}
    {df : List Row} {crop st : String} {ts : List (ℤ × ℚ)}
    (h : make_daily_ts df crop st = .ok ts) :
    (60 ≤ ts.length → ∃ q,
      predict_next_day_price rt o df crop st = .ok (round2 q) ∧
      forecast_prices rt o df crop st 1 = .ok [(lastDate ts + 1, round2 q)]) ∧
    (31 ≤ ts.length → ts.length < 60 →
      predict_next_day_price rt o df crop st = .error .insufficientHistory ∧
      ∃ pts, forecast_prices rt o df crop st 1 = .ok pts ∧ pts.length = 1) := by
  constructor
  · intro h60
    obtain ⟨r, hr⟩ := @window_has_features rt ts (by omega)
    refine ⟨o r.feats, ?_, ?_⟩
    · have hrec : get_recent_ts df crop st = .ok (lastN 60 ts) := by
        rw [get_recent_ts_eq 60 h, if_neg (by omega)]
      have hprep : prepare_latest_features rt (lastN 60 ts) = .ok r.feats := by
        simp only [prepare_latest_features]
        rw [hr]
      simp only [predict_next_day_price]
      rw [hrec]
      show (prepare_latest_features rt (lastN 60 ts) >>=
        fun x => pure (round2 (o x)) : Except Err ℚ) = _
      rw [hprep]
      rfl
    · have hloop : forecastLoop rt o ts 1 =
          .ok (ts ++ [(lastDate ts + 1, o r.feats)],
               [(lastDate ts + 1, round2 (o r.feats))]) := by
        rw [forecastLoop_succ_of_some hr]
        rfl
      rw [forecast_prices_eq h, hloop]
      rfl
  · intro h31 h60
    constructor
    · have hrec : get_recent_ts df crop st = .error .insufficientHistory := by
        rw [get_recent_ts_eq 60 h, if_pos (by omega)]
      simp only [predict_next_day_price]
      rw [hrec]
      rfl
    · obtain ⟨s, pts, hloop, hl, -⟩ := forecastLoop_ok rt o 1 ts h31
      exact ⟨pts, by rw [forecast_prices_eq h, hloop]; rfl, hl⟩

/-- The 70-day constant table used as the agreement-side witness for C2. -/
def dfW70 : List Row := (List.range 70).map (fun i : ℕ => ⟨"c", "s", (i : ℤ), 1000⟩)

/-- The daily series `make_daily_ts` produces from `dfW70`. -/
def tsW70 : List (ℤ × ℚ) := (List.range 70).map (fun i : ℕ => ((i : ℤ), (1000:ℚ)))

/-- Witness for C2 (amended) at the concrete 70-day series. -/
theorem predict_next_day_vs_forecast_witness :
    make_daily_ts dfW70 "c" "s" = .ok tsW70 ∧ 60 ≤ tsW70.length ∧
    ∃ q, predict_next_day_price id (fun _ => (1000:ℚ)) dfW70 "c" "s" = .ok (round2 q) ∧
      forecast_prices id (fun _ => (1000:ℚ)) dfW70 "c" "s" 1 =
        .ok [(lastDate tsW70 + 1, round2 q)] :=
  ⟨by decide!, by decide!,
   (predict_next_day_vs_forecast (by decide!)).1 (by decide!)⟩

/-- C9 (confirmed): `forecast_prices` is deterministic — two runs on equal
inputs with extensionally equal oracles produce identical output; the
embedding is a pure function of the series, oracle and horizon, with no
hidden state or randomness. -/
theorem forecast_deterministic (rt : ℚ → ℚ) (o1 o2 : Features → ℚ)
    (df1 df2 : List Row) (crop1 crop2 st1 st2 : String) (d1 d2 : ℕ)
    (hdf : df1 = df2) (hcrop : crop1 = crop2) (hst : st1 = st2) (hd : d1 = d2)
    (ho : ∀ x, o1 x = o2 x) :
    forecast_prices rt o1 df1 crop1 st1 d1 = forecast_prices rt o2 df2 crop2 st2 d2 := by
  subst hdf hcrop hst hd
  rw [funext ho]

/-- Witness for C9 at concrete equal inputs. -/
theorem forecast_deterministic_witness :
    forecast_prices id (fun _ => (5:ℚ)) dfW40 "c" "s" 2 =
      forecast_prices id (fun _ => (5:ℚ)) dfW40 "c" "s" 2 :=
  forecast_deterministic id (fun _ => (5:ℚ)) (fun _ => (5:ℚ)) dfW40 dfW40
    "c" "c" "s" "s" 2 2 rfl rfl rfl rfl (fun _ => rfl)

theorem get_trend_cons {d0 : ℤ} {p0 : ℚ} {fs : List (ℤ × ℚ)} (h0 : p0 ≠ 0) :
    ∃ pl : ℤ × ℚ, ((d0, p0) :: fs).getLast? = some pl ∧
      get_trend ((d0, p0) :: fs) =
        .ok (round2 ((pl.2 - p0) / p0 * 100), trendLabel ((pl.2 - p0) / p0 * 100)) := by
  refine ⟨((d0, p0) :: fs).getLast (List.cons_ne_nil _ _),
    List.getLast?_eq_getLast _ _, ?_⟩
  have hun : get_trend ((d0, p0) :: fs) =
      if p0 = 0 then Except.error Err.divByZero
      else .ok
        (round2 ((((p0 :: fs.map Prod.snd).getLast (List.cons_ne_nil _ _)) - p0) / p0 * 100),
         trendLabel ((((p0 :: fs.map Prod.snd).getLast (List.cons_ne_nil _ _)) - p0) / p0 * 100)) :=
    rfl
  rw [hun, if_neg h0]
  have hmap : ∀ hne, (p0 :: fs.map Prod.snd).getLast hne =
      (((d0, p0) :: fs).getLast (List.cons_ne_nil _ _)).2 := by
    intro hne
    have : (p0 :: fs.map Prod.snd) = ((d0, p0) :: fs).map Prod.snd := rfl
    rw [List.getLast_congr _ _ this, List.getLast_map]
    simp
  rw [hmap]

/-- Counterexample to C3 as stated: at first price 300 and last price 315.01
the percent change is 1501/300 ≈ 5.0033, which rounds to exactly 5.00, yet
`get_trend` labels "Strong Upward" — the strict `> 5` comparison is applied
to the unrounded value, not to the rounded `percent_change` of 5.00 (which,
per the claim's strict semantics, would have to be labelled "Upward"). -/
theorem trend_rounded_boundary_counterexample :
    get_trend [((0:ℤ), (300:ℚ)), (1, 31501/100)] = .ok (5, "Strong Upward 📈") ∧
    round2 ((31501/100 - 300) / 300 * 100) = 5 ∧
    "Strong Upward 📈" ≠ "Upward 📈" :=
  ⟨by decide!, by decide!, by decide⟩

/-- C3 (amended): `get_trend` computes
`percent_change = (last - first) / first * 100`, returns it rounded to two
decimal places, but applies its strict threshold comparisons to the
*unrounded* value. At unrounded boundary values the non-strong buckets
result exactly as the claim lists: 5 → "Upward", 2 → "Stable",
-2 → "Stable", -5 → "Downward". -/
theorem get_trend_formula_and_boundaries {pts : List (ℤ × ℚ)} {d0 : ℤ}
    {p0 : ℚ} {rest : List (ℤ × ℚ)}
    (hpts : pts = (d0, p0) :: rest) (h0 : p0 ≠ 0) :
    (∃ pl : ℤ × ℚ, pts.getLast? = some pl ∧
      get_trend pts = .ok (round2 ((pl.2 - p0) / p0 * 100),
        trendLabel ((pl.2 - p0) / p0 * 100))) ∧
    trendLabel 5 = "Upward 📈" ∧ trendLabel 2 = "Stable ➝" ∧
    trendLabel (-2) = "Stable ➝" ∧ trendLabel (-5) = "Downward 📉" := by
  subst hpts
  exact ⟨get_trend_cons h0, by decide!, by decide!, by decide!, by decide!⟩

/-- Witness for C3 (amended) at a concrete two-point forecast. -/
theorem get_trend_formula_witness :
    ([((0:ℤ), (100:ℚ)), (1, 105)] = ((0:ℤ), (100:ℚ)) :: [((1:ℤ), (105:ℚ))]) ∧
    ((100:ℚ) ≠ 0) ∧
    ((∃ pl : ℤ × ℚ, [((0:ℤ), (100:ℚ)), (1, 105)].getLast? = some pl ∧
        get_trend [((0:ℤ), (100:ℚ)), (1, 105)] =
          .ok (round2 ((pl.2 - 100) / 100 * 100), trendLabel ((pl.2 - 100) / 100 * 100))) ∧
      trendLabel 5 = "Upward 📈" ∧ trendLabel 2 = "Stable ➝" ∧
      trendLabel (-2) = "Stable ➝" ∧ trendLabel (-5) = "Downward 📉") :=
  ⟨rfl, by norm_num, get_trend_formula_and_boundaries rfl (by norm_num)⟩

theorem except_bind_ok {ε α β : Type} (a : α) (f : α → Except ε β) :
    (Except.ok a >>= f : Except ε β) = f a := rfl

theorem except_bind_error {ε α β : Type} (e : ε) (f : α → Except ε β) :
    (Except.error e >>= f : Except ε β) = .error e := rfl

theorem forecastLoop_raw (rt : ℚ → ℚ) (o : Features → ℚ) (n : ℕ) :
    ∀ ts s pts : List (ℤ × ℚ), forecastLoop rt o ts n = .ok (s, pts) →
      ∃ raw : List (ℤ × ℚ),
        s = ts ++ raw ∧
        pts = raw.map (fun dq => (dq.1, round2 dq.2)) ∧
        ∀ k : ℕ, k < raw.length →
          ∃ r, (make_features rt (lastN 60 (ts ++ raw.take k))).getLast? = some r ∧
            raw[k]? = some (lastDate (ts ++ raw.take k) + 1, o r.feats) := by
  induction n with
  | zero =>
    intro ts s pts h
    have hdef : forecastLoop rt o ts 0 = .ok (ts, []) := rfl
    rw [hdef] at h
    injection h with h2
    injection h2 with ha hb
    subst ha
    subst hb
    refine ⟨[], by simp, rfl, ?_⟩
    intro k hk
    simp at hk
  | succ n ih =>
    intro ts s pts h
    cases hr : (make_features rt (lastN 60 ts)).getLast? with
    | none =>
      rw [forecastLoop_succ_of_none hr] at h
      simp at h
    | some r =>
      rw [forecastLoop_succ_of_some hr] at h
      cases hl : forecastLoop rt o (ts ++ [(lastDate ts + 1, o r.feats)]) n with
      | error e =>
        rw [hl] at h
        simp [Except.map] at h
      | ok sp =>
        obtain ⟨s2, pts2⟩ := sp
        rw [hl] at h
        have h3 : (Except.ok (s2, (lastDate ts + 1, round2 (o r.feats)) :: pts2) :
            Except Err (List (ℤ × ℚ) × List (ℤ × ℚ))) = .ok (s, pts) := h
        injection h3 with h4
        injection h4 with hs hp
        subst hs
        subst hp
        obtain ⟨raw2, hsr, hpr, hstep⟩ := ih _ _ _ hl
        refine ⟨(lastDate ts + 1, o r.feats) :: raw2, ?_, ?_, ?_⟩
        · rw [hsr]
          simp
        · rw [List.map_cons, ← hpr]
        · intro k hk
          cases k with
          | zero =>
            refine ⟨r, ?_, ?_⟩
            · simp only [List.take_zero, List.append_nil]
              exact hr
            · simp only [List.take_zero, List.append_nil, List.getElem?_cons_zero]
          | succ k =>
            simp only [List.length_cons] at hk
            obtain ⟨r2, hfeat, hidx⟩ := hstep k (by omega)
            refine ⟨r2, ?_, ?_⟩
            · rw [List.take_succ_cons, List.append_cons]
              exact hfeat
            · rw [List.getElem?_cons_succ, List.take_succ_cons, List.append_cons]
              exact hidx

theorem forecast_summary_fields {rt : ℚ → ℚ} {o : Features → ℚ}
    {df : List Row} {crop st : String} {days : ℕ} {sm : Summary}
    (h : forecast_summary rt o df crop st days = .ok sm) :
    ∃ f : List (ℤ × ℚ), forecast_prices rt o df crop st days = .ok f ∧ f ≠ [] ∧
      sm.daily_forecast = f ∧
      sm.start_price = f.headI.2 ∧
      sm.end_price = (f.getLastD (0, 0)).2 ∧
      sm.percent_change =
        round2 (((f.getLastD (0, 0)).2 - f.headI.2) / f.headI.2 * 100) := by
  cases hf : forecast_prices rt o df crop st days with
  | error e =>
    have he : forecast_summary rt o df crop st days = .error e := by
      simp only [forecast_summary]
      rw [hf]
      rfl
    rw [he] at h
    simp at h
  | ok f =>
    cases f with
    | nil =>
      have he : forecast_summary rt o df crop st days = .error .emptyForecast := by
        simp only [forecast_summary]
        rw [hf]
        rfl
      rw [he] at h
      simp at h
    | cons hd tl =>
      obtain ⟨d0, p0⟩ := hd
      by_cases h0 : p0 = 0
      · subst h0
        have he : forecast_summary rt o df crop st days = .error .divByZero := by
          simp only [forecast_summary]
          rw [hf]
          rfl
        rw [he] at h
        simp at h
      · obtain ⟨pl, hpl, hgt⟩ := @get_trend_cons d0 p0 tl h0
        have hsum : forecast_summary rt o df crop st days =
            Except.ok (summaryOf crop st days (round2 ((pl.2 - p0) / p0 * 100))
              (trendLabel ((pl.2 - p0) / p0 * 100)) d0 p0 tl) := by
          simp only [forecast_summary]
          rw [hf, except_bind_ok, hgt, except_bind_ok]
          rfl
        rw [hsum] at h
        injection h with h2
        subst h2
        refine ⟨(d0, p0) :: tl, rfl, by simp, rfl, rfl, ?_, ?_⟩
        · show (((d0, p0) :: tl).getLast (List.cons_ne_nil _ _)).2 =
            (((d0, p0) :: tl).getLastD (0, 0)).2
          rw [List.getLastD_eq_getLast?, List.getLast?_eq_getLast _ (List.cons_ne_nil _ _)]
          rfl
        · show round2 ((pl.2 - p0) / p0 * 100) = _
          have hpl2 : pl = ((d0, p0) :: tl).getLastD (0, 0) := by
            rw [List.getLastD_eq_getLast?, hpl]
            rfl
          rw [hpl2]
          rfl

/-- C10 (confirmed): (i) in every iteration of the recursive loop, the value
appended to the working series — and hence fed to all later lag/rolling
features — is the oracle's *unrounded* prediction, while the recorded
ForecastPoint carries that prediction rounded to 2 decimal places: on
success the final working series is the input series extended by the raw
predictions, the returned points are exactly those raw pairs with prices
rounded, and each raw prediction is the oracle's output on the last feature
row of the 60-day window of the series built from the raw (unrounded)
values; (ii) `forecast_summary`'s `start_price`, `end_price` and
`percent_change` are computed from the rounded point prices. -/
theorem forecast_round_recursion_split :
    (∀ (rt : ℚ → ℚ) (o : Features → ℚ) (n : ℕ) (ts s pts : List (ℤ × ℚ)),
      forecastLoop rt o ts n = .ok (s, pts) →
      ∃ raw : List (ℤ × ℚ),
        s = ts ++ raw ∧
        pts = raw.map (fun dq => (dq.1, round2 dq.2)) ∧
        ∀ k : ℕ, k < raw.length →
          ∃ r, (make_features rt (lastN 60 (ts ++ raw.take k))).getLast? = some r ∧
            raw[k]? = some (lastDate (ts ++ raw.take k) + 1, o r.feats)) ∧
    (∀ (rt : ℚ → ℚ) (o : Features → ℚ) (df : List Row) (crop st : String)
      (days : ℕ) (sm : Summary),
      forecast_summary rt o df crop st days = .ok sm →
      ∃ f : List (ℤ × ℚ), forecast_prices rt o df crop st days = .ok f ∧ f ≠ [] ∧
        sm.daily_forecast = f ∧
        sm.start_price = f.headI.2 ∧
        sm.end_price = (f.getLastD (0, 0)).2 ∧
        sm.percent_change =
          round2 (((f.getLastD (0, 0)).2 - f.headI.2) / f.headI.2 * 100)) :=
  ⟨fun rt o n ts s pts h => forecastLoop_raw rt o n ts s pts h,
   fun _ _ _ _ _ _ _ h => forecast_summary_fields h⟩

/-- The summary produced for `dfW35` with a constant-1000 oracle and a
three-day horizon. -/
def smW : Summary :=
  ⟨"c", "s", 3, 1000, 1000, 0, "Stable", "➝",
   [((35:ℤ), (1000:ℚ)), (36, 1000), (37, 1000)]⟩

/-- Witness for C10 at the concrete 35-day series: one loop iteration and
the three-day summary. -/
theorem forecast_round_recursion_split_witness :
    forecastLoop id (fun _ => (1000:ℚ)) tsW35 1 =
      .ok (tsW35 ++ [((35:ℤ), (1000:ℚ))], [((35:ℤ), (1000:ℚ))]) ∧
    (∃ raw : List (ℤ × ℚ),
      tsW35 ++ [((35:ℤ), (1000:ℚ))] = tsW35 ++ raw ∧
      [((35:ℤ), (1000:ℚ))] = raw.map (fun dq => (dq.1, round2 dq.2)) ∧
      ∀ k : ℕ, k < raw.length →
        ∃ r, (make_features id (lastN 60 (tsW35 ++ raw.take k))).getLast? = some r ∧
          raw[k]? = some (lastDate (tsW35 ++ raw.take k) + 1,
            (fun _ => (1000:ℚ)) r.feats)) ∧
    forecast_summary id (fun _ => (1000:ℚ)) dfW35 "c" "s" 3 = .ok smW ∧
    (∃ f : List (ℤ × ℚ),
      forecast_prices id (fun _ => (1000:ℚ)) dfW35 "c" "s" 3 = .ok f ∧ f ≠ [] ∧
      smW.daily_forecast = f ∧
      smW.start_price = f.headI.2 ∧
      smW.end_price = (f.getLastD (0, 0)).2 ∧
      smW.percent_change =
        round2 (((f.getLastD (0, 0)).2 - f.headI.2) / f.headI.2 * 100)) :=
  ⟨by decide!,
   forecast_round_recursion_split.1 id (fun _ => (1000:ℚ)) 1 tsW35 _ _ (by decide!),
   by decide!,
   forecast_round_recursion_split.2 id (fun _ => (1000:ℚ)) dfW35 "c" "s" 3 smW
     (by decide!)⟩

end AgriForecast
